import Mathlib

/-!
# UnrealTorch: the Lua state wrapper `UUthLuaState`

A shallow embedding of `Source/UnrealTorch/Private/UthLuaState.cpp`:
the process-wide name registry `stateNamesInUse`, the name generator
`MakeUniqueLuaStateName`, the constructor, `setName`, `destroy` and
`isValid`, followed by the properties of the specification that concern them.
-/

namespace UnrealTorch

/-! ## Names -/

/-- Modelled from the spec: the host type `FName` is declared outside the
sources at hand; the spec describes the registry as a set of unique identifiers
(strings), so a name is its string. -/
abbrev FName := String

/-- Modelled from the spec: the `name` field of an object whose constructor
returned early is a default-constructed `FName`, a host value that the sources
at hand do not declare. It is fixed here as the string `None`; no theorem below
depends on the choice. -/
def NAME_None : FName := "None"

/-- The string `uniqueNameBase + "_" + std::to_string( uniqueNameSuffix )`. -/
def suffixedName (uniqueNameBase : String) (uniqueNameSuffix : Nat) : String :=
  uniqueNameBase ++ "_" ++ toString uniqueNameSuffix

/-! ### Decimal numerals are injective

The loop of `MakeUniqueLuaStateName` terminates because the names it probes
are pairwise different; that rests on `std::to_string` being injective. -/

/-- Value of a decimal digit character. -/
def digitValue (c : Char) : Nat := c.toNat - 48

/-- Reads a list of decimal digits, most significant first, onto `acc`. -/
def readDigits (acc : Nat) (ds : List Char) : Nat :=
  ds.foldl (fun a c => a * 10 + digitValue c) acc

theorem digitValue_digitChar (m : Nat) (h : m < 10) :
    digitValue (Nat.digitChar m) = m := by
  interval_cases m <;> decide

theorem readDigits_toDigitsCore (fuel : Nat) :
    ∀ (n : Nat) (ds : List Char), n < fuel →
      readDigits 0 (Nat.toDigitsCore 10 fuel n ds) = readDigits n ds := by
  induction fuel with
  | zero => intro n ds h; omega
  | succ fuel ih =>
    intro n ds h
    have hd : digitValue (Nat.digitChar (n % 10)) = n % 10 :=
      digitValue_digitChar _ (Nat.mod_lt _ (by decide))
    by_cases h0 : n / 10 = 0
    · have hn : n % 10 = n := by omega
      rw [hn] at hd
      simp [Nat.toDigitsCore, h0, readDigits, hd, hn]
    · have hlt : n / 10 < fuel := by omega
      have hrec := ih (n / 10) (Nat.digitChar (n % 10) :: ds) hlt
      have hn : n / 10 * 10 + n % 10 = n := by omega
      simp only [Nat.toDigitsCore, h0, if_false]
      rw [hrec]
      simp [readDigits, hd, hn]

theorem readDigits_toDigits (n : Nat) : readDigits 0 (Nat.toDigits 10 n) = n := by
  have h := readDigits_toDigitsCore (n + 1) n [] (Nat.lt_succ_self n)
  simpa [Nat.toDigits, readDigits] using h

theorem toString_nat_injective : Function.Injective (fun n : Nat => toString n) := by
  intro a b h
  have h1 : Nat.repr a = Nat.repr b := h
  have h2 : Nat.toDigits 10 a = Nat.toDigits 10 b := by
    have := congrArg String.data h1
    simpa [Nat.repr, List.asString] using this
  have h3 := congrArg (readDigits 0) h2
  simpa [readDigits_toDigits] using h3

theorem suffixedName_injective (uniqueNameBase : String) :
    Function.Injective (suffixedName uniqueNameBase) := by
  intro a b h
  have h1 := congrArg String.data h
  simp only [suffixedName, String.data_append, List.append_cancel_left_eq] at h1
  exact toString_nat_injective (String.ext h1)

/-- Names of the registry that the loop has not probed yet when its counter is
`uniqueNameSuffix`: the measure that decreases at every further round. -/
def unprobed (stateNamesInUse : Finset FName) (uniqueNameBase : String)
    (uniqueNameSuffix : Nat) : Finset FName :=
  stateNamesInUse \ (Finset.range uniqueNameSuffix).image (suffixedName uniqueNameBase)

theorem unprobed_card_lt (stateNamesInUse : Finset FName) (uniqueNameBase : String)
    (uniqueNameSuffix : Nat)
    (h : suffixedName uniqueNameBase uniqueNameSuffix ∈ stateNamesInUse) :
    (unprobed stateNamesInUse uniqueNameBase (uniqueNameSuffix + 1)).card
      < (unprobed stateNamesInUse uniqueNameBase uniqueNameSuffix).card := by
  apply Finset.card_lt_card
  rw [Finset.ssubset_iff_of_subset]
  · refine ⟨suffixedName uniqueNameBase uniqueNameSuffix, ?_, ?_⟩
    · simp only [unprobed, Finset.mem_sdiff, Finset.mem_image, Finset.mem_range, not_exists,
        not_and]
      refine ⟨h, ?_⟩
      intro j hj hEq
      have := suffixedName_injective uniqueNameBase hEq
      omega
    · simp only [unprobed, Finset.mem_sdiff, Finset.mem_image, Finset.mem_range, not_and,
        not_not]
      intro _
      exact ⟨uniqueNameSuffix, Nat.lt_succ_self _, rfl⟩
  · intro x
    simp only [unprobed, Finset.mem_sdiff, Finset.mem_image, Finset.mem_range, not_exists,
      not_and]
    rintro ⟨hx, hn⟩
    exact ⟨hx, fun j hj => hn j (Nat.lt_succ_of_lt hj)⟩

/-! ## `MakeUniqueLuaStateName` -/

/-- The `do … while` loop of `MakeUniqueLuaStateName`, entered with the counter
at `uniqueNameSuffix`: build `uniqueNameBase_<suffix>`, advance the counter, go
round again while the name built is in `stateNamesInUse`. The `int` counter is a
natural number here: it never passes the number of names in the registry by
more than one (see `MakeUniqueLuaStateName_first_free`), so it stays within
`int` for every registry of fewer than `2^31 - 1` names. -/
def probeLoop (stateNamesInUse : Finset FName) (uniqueNameBase : String)
    (uniqueNameSuffix : Nat) : FName :=
  let uniqueName := suffixedName uniqueNameBase uniqueNameSuffix
  if uniqueName ∈ stateNamesInUse then
    probeLoop stateNamesInUse uniqueNameBase (uniqueNameSuffix + 1)
  else
    uniqueName
termination_by (unprobed stateNamesInUse uniqueNameBase uniqueNameSuffix).card
decreasing_by exact unprobed_card_lt _ _ _ (by assumption)

/-- `UUthLuaState::MakeUniqueLuaStateName( baseName )`. -/
def MakeUniqueLuaStateName (stateNamesInUse : Finset FName) (baseName : FName) : FName :=
  if baseName ∈ stateNamesInUse then
    probeLoop stateNamesInUse baseName 1
  else
    baseName

/-! ## The object and its interpreter -/

/-- The wrapped interpreter `sol::state`, an external library: the entries
this file writes into it, and the calls it makes into it. -/
structure SolState where
  /-- Lua global `package.path`. -/
  package_path : String
  /-- Lua global `package.cpath`. -/
  package_cpath : String
  /-- Lua global `uth.statename`. -/
  uth_statename : String
  /-- Lua global `uth.ue.BuildShippingOrTest`. -/
  uth_ue_BuildShippingOrTest : Bool
  /-- Lua global `uth.ue.FPaths.GameLogDir`. -/
  uth_ue_FPaths_GameLogDir : String
  /-- Whether the Lua function `uth.utility.redirect_output` exists. The
  constructor creates `uth` with `statename` and `ue` only; `uth.utility` is
  there once `uth/init.lua` has loaded the utility module. -/
  uth_utility_defined : Bool
  /-- Invocations of `uth.utility.redirect_output`, oldest first, each with
  the `uth.statename` in force when it ran. -/
  redirect_output_calls : List String
  deriving DecidableEq, Repr

/-- Modelled from the spec: the Lua function `uth.utility.redirect_output` is
defined by a script outside the sources at hand; the spec says it re-establishes
output routing under the new name. A call of it, where it exists, is recorded
with the name it finds in `uth.statename`. -/
def redirect_output (L : SolState) : SolState :=
  { L with redirect_output_calls := L.redirect_output_calls ++ [L.uth_statename] }

/-- Severity of a host log line (`ELogVerbosity::Type`). -/
inductive ELogVerbosity
  | Fatal | Error | Warning | Display | Log | Verbose | VeryVerbose
  deriving DecidableEq, Repr

/-- One line written to the host log through `UE_LOG`. -/
structure LogLine where
  category : String
  verbosity : ELogVerbosity
  message : String
  deriving DecidableEq, Repr

/-- An object of class `UUthLuaState`: its two fields and the two host flags
(`IsRooted()`, `IsPendingKill()`) that its methods read and write. -/
structure UUthLuaState where
  name : FName
  /-- The field `std::unique_ptr<sol::state> lua`; `none` is the null pointer. -/
  lua : Option SolState
  rooted : Bool
  pendingKill : Bool
  deriving DecidableEq, Repr

/-- Outcome of `lua->script_file( ".../uth/init.lua", sol::default_on_error )`.
Modelled from the spec: the script is outside the sources at hand. A run that
completes has loaded the utility module, so `uth.utility` exists afterwards; a
run that throws may have stopped before or after that point. -/
inductive Bootstrap
  /-- The script ran to its end. -/
  | completed
  /-- The script threw a `sol::error` whose `what()` is `what`;
  `utilityDefined` tells whether `uth.utility` was defined before it threw. -/
  | threw (what : String) (utilityDefined : Bool)
  deriving DecidableEq, Repr

/-- Whether `uth.utility.redirect_output` exists after the bootstrap. -/
def Bootstrap.definesUtility : Bootstrap → Bool
  | Bootstrap.completed => true
  | Bootstrap.threw _ utilityDefined => utilityDefined

/-- What the constructor reads from the host. -/
structure Host where
  /-- `FModuleManager::Get().IsModuleLoaded( "UnrealTorch" )`. -/
  IsModuleLoaded : Bool
  /-- `IPluginManager::Get().FindPlugin( "UnrealTorch" )->GetBaseDir()`. -/
  BaseDirPlugin : String
  /-- `FPaths::GameContentDir()`. -/
  BaseDirGameContent : String
  /-- `FPaths::GameLogDir()`. -/
  BaseDirGameLogs : String
  /-- `UE_BUILD_SHIPPING || UE_BUILD_TEST`. -/
  BuildShippingOrTest : Bool
  /-- Outcome of running `uth/init.lua`. -/
  bootstrap : Bootstrap
  deriving DecidableEq, Repr

/-- The object before the constructor body runs. -/
def UUthLuaState.fresh : UUthLuaState :=
  { name := NAME_None, lua := none, rooted := false, pendingKill := false }

/-- The value the constructor assigns to `package.path`. -/
def packagePath (BaseDirPlugin BaseDirGameContent : String) : String :=
  BaseDirPlugin ++ "/Source/UnrealTorch/Private/lua/?.lua;" ++
  BaseDirPlugin ++ "/Source/ThirdParty/Torch/WindowsTorch/lua/?.lua;" ++
  BaseDirPlugin ++ "/Source/ThirdParty/Torch/WindowsTorch/lua/?/init.lua;" ++
  BaseDirGameContent ++ "/Lua/?.lua;" ++
  BaseDirGameContent ++ "/Lua/?/init.lua"

/-- The value the constructor assigns to `package.cpath`. -/
def packageCpath (BaseDirPlugin BaseDirGameContent : String) : String :=
  BaseDirPlugin ++ "/Source/ThirdParty/Torch/WindowsTorch/bin/?.dll;" ++
  BaseDirGameContent ++ "/Lua/bin/?.dll"

/-- Result of running the constructor: the registry, the object and the lines
logged. -/
structure Constructed where
  stateNamesInUse : Finset FName
  self : UUthLuaState
  logged : List LogLine
  deriving DecidableEq

/-- `UUthLuaState::UUthLuaState()`. -/
def UUthLuaState.construct (host : Host) (stateNamesInUse : Finset FName) : Constructed :=
  if host.IsModuleLoaded = false then
    { stateNamesInUse := stateNamesInUse, self := UUthLuaState.fresh, logged := [] }
  else
    let name := MakeUniqueLuaStateName stateNamesInUse "default"
    let stateNamesInUse := insert name stateNamesInUse
    let lua : SolState :=
      { package_path := packagePath host.BaseDirPlugin host.BaseDirGameContent
        package_cpath := packageCpath host.BaseDirPlugin host.BaseDirGameContent
        uth_statename := name
        uth_ue_BuildShippingOrTest := host.BuildShippingOrTest
        uth_ue_FPaths_GameLogDir := host.BaseDirGameLogs
        uth_utility_defined := false
        redirect_output_calls := [] }
    let lua : SolState := { lua with uth_utility_defined := host.bootstrap.definesUtility }
    let logged : List LogLine :=
      match host.bootstrap with
      | Bootstrap.completed => []
      | Bootstrap.threw what _ =>
        [{ category := "LogUnrealTorch", verbosity := ELogVerbosity.Error,
           message := "Failed to do uth/init.lua: " ++ what }]
    { stateNamesInUse := stateNamesInUse
      self := { UUthLuaState.fresh with name := name, lua := some lua }
      logged := logged }

/-- `UUthLuaState::getName()`. -/
def UUthLuaState.getName (self : UUthLuaState) : FName := self.name

/-- `UUthLuaState::isValid()`. -/
def UUthLuaState.isValid (self : UUthLuaState) : Bool :=
  self.lua.isSome && !self.pendingKill

/-- `UUthLuaState::destroy()`: the registry and the object afterwards. -/
def UUthLuaState.destroy (stateNamesInUse : Finset FName) (self : UUthLuaState) :
    Finset FName × UUthLuaState :=
  let stateNamesInUse := stateNamesInUse.erase self.getName
  let self := if self.rooted then { self with rooted := false } else self
  let self := { self with lua := none }
  let self := { self with pendingKill := true }
  (stateNamesInUse, self)

/-- What a `setName` call that returns leaves behind. -/
structure Renamed where
  /-- The value returned. -/
  result : Bool
  stateNamesInUse : Finset FName
  self : UUthLuaState
  deriving DecidableEq

/-- The ways a `setName` call ends. -/
inductive SetNameOutcome
  /-- `check( isValid() )` failed: the program stops. -/
  | checkFailed
  /-- The call returned. -/
  | returned (r : Renamed)
  /-- The call `(*lua)["uth"]["utility"]["redirect_output"]()` found no such
  function and raised, leaving the registry and the object as written so far. -/
  | raised (stateNamesInUse : Finset FName) (self : UUthLuaState)
  deriving DecidableEq

/-- The registry and the object after the call, when the program goes on. -/
def SetNameOutcome.after : SetNameOutcome → Option (Finset FName × UUthLuaState)
  | SetNameOutcome.checkFailed => none
  | SetNameOutcome.returned r => some (r.stateNamesInUse, r.self)
  | SetNameOutcome.raised stateNamesInUse self => some (stateNamesInUse, self)

/-- `UUthLuaState::setName( newName )`. -/
def UUthLuaState.setName (stateNamesInUse : Finset FName) (self : UUthLuaState)
    (newName : FName) : SetNameOutcome :=
  if self.isValid = false then SetNameOutcome.checkFailed
  else if newName = self.getName then
    SetNameOutcome.returned
      { result := true, stateNamesInUse := stateNamesInUse, self := self }
  else if newName ∈ stateNamesInUse then
    SetNameOutcome.returned
      { result := false, stateNamesInUse := stateNamesInUse, self := self }
  else
    let stateNamesInUse := stateNamesInUse.erase self.getName
    let stateNamesInUse := insert newName stateNamesInUse
    let self := { self with name := newName }
    let self := { self with lua := self.lua.map fun (L : SolState) => { L with uth_statename := self.name } }
    if self.lua.map (fun (L : SolState) => L.uth_utility_defined) = some true then
      let self := { self with lua := self.lua.map redirect_output }
      SetNameOutcome.returned
        { result := true, stateNamesInUse := stateNamesInUse, self := self }
    else
      SetNameOutcome.raised stateNamesInUse self

/-! ## The program: a registry and the objects created so far -/

/-- The static registry, every object created so far (an object is known by
its position), and the host log. -/
structure World where
  stateNamesInUse : Finset FName
  objects : List UUthLuaState
  log : List LogLine
  deriving DecidableEq

/-- Nothing created yet. -/
def World.initial : World := { stateNamesInUse := ∅, objects := [], log := [] }

/-- A call into the class. -/
inductive Op
  /-- Create an object; `host` is what the constructor finds. -/
  | construct (host : Host)
  /-- `objects[i].setName( newName )`. -/
  | setName (i : Nat) (newName : FName)
  /-- `objects[i].destroy()`. -/
  | destroy (i : Nat)
  deriving DecidableEq

/-- One call; `none` when the program stops on a failed `check` or the object
does not exist. A `setName` that raised is taken to have been caught by the
caller: the program goes on with what the call had written. -/
def World.step (w : World) : Op → Option World
  | Op.construct host =>
    let c := UUthLuaState.construct host w.stateNamesInUse
    some { stateNamesInUse := c.stateNamesInUse
           objects := w.objects ++ [c.self]
           log := w.log ++ c.logged }
  | Op.setName i newName =>
    match w.objects[i]? with
    | none => none
    | some self =>
      match (self.setName w.stateNamesInUse newName).after with
      | none => none
      | some r =>
        some { w with stateNamesInUse := r.1, objects := w.objects.set i r.2 }
  | Op.destroy i =>
    match w.objects[i]? with
    | none => none
    | some self =>
      let d := self.destroy w.stateNamesInUse
      some { w with stateNamesInUse := d.1, objects := w.objects.set i d.2 }

/-- A sequence of calls, first to last. -/
def World.run (w : World) : List Op → Option World
  | [] => some w
  | op :: ops =>
    match w.step op with
    | none => none
    | some w1 => w1.run ops

/-- A host with the module loaded, for examples. -/
def Host.loaded : Host :=
  { IsModuleLoaded := true, BaseDirPlugin := "P", BaseDirGameContent := "G",
    BaseDirGameLogs := "L", BuildShippingOrTest := false, bootstrap := Bootstrap.completed }

/-- A host whose module is not loaded yet, for examples. -/
def Host.notLoaded : Host := { Host.loaded with IsModuleLoaded := false }

/-- The program state after one construction with the module loaded. -/
def World.oneLive : World :=
  { stateNamesInUse := {"default"}
    objects := [(UUthLuaState.construct Host.loaded ∅).self]
    log := [] }

/-- The program state after that one object has been destroyed. -/
def World.oneDestroyed : World :=
  { stateNamesInUse := ∅
    objects := [((UUthLuaState.construct Host.loaded ∅).self.destroy {"default"}).2]
    log := [] }

/-! ## The invariant on names -/

/-- No two valid objects share a name. -/
def World.NamesUnique (w : World) : Prop :=
  ∀ (i j : Nat) (a b : UUthLuaState), w.objects[i]? = some a → w.objects[j]? = some b →
    a.isValid = true → b.isValid = true → a.getName = b.getName → i = j

/-- The name of every valid object is in the registry. -/
def World.LiveNamesReserved (w : World) : Prop :=
  ∀ (i : Nat) (a : UUthLuaState), w.objects[i]? = some a → a.isValid = true →
    a.getName ∈ w.stateNamesInUse

/-- The call is not a `destroy()` on an object that is no longer, or never
was, valid. -/
def Op.destroysOnlyLive (w : World) : Op → Prop
  | Op.destroy i => ∃ o, w.objects[i]? = some o ∧ o.isValid = true
  | _ => True

/-- Program states reached from the empty one by calls none of which is a
`destroy()` on an invalid object. -/
inductive World.ReachableDestroyingLive : World → Prop
  | initial : World.ReachableDestroyingLive World.initial
  | step (w w1 : World) (op : Op) : World.ReachableDestroyingLive w →
      op.destroysOnlyLive w → w.step op = some w1 → World.ReachableDestroyingLive w1

/-! ## The module search path as the specification words it -/

/-- The search path in the words of the specification: every root contributes
the direct-file pattern and the init-file pattern, in the order of the roots,
joined by `;`. -/
def specSearchPath (roots : List String) (ext : String) : String :=
  String.intercalate ";"
    (roots.flatMap fun root => [root ++ "/?." ++ ext, root ++ "/?/init." ++ ext])

/-- Root of the plugin's own Lua files. -/
def ownScriptsRoot (BaseDirPlugin : String) : String :=
  BaseDirPlugin ++ "/Source/UnrealTorch/Private/lua"

/-- Root of the bundled Torch Lua files. -/
def torchRoot (BaseDirPlugin : String) : String :=
  BaseDirPlugin ++ "/Source/ThirdParty/Torch/WindowsTorch/lua"

/-- Root of the project's Lua files. -/
def projectRoot (BaseDirGameContent : String) : String :=
  BaseDirGameContent ++ "/Lua"

/-! ## Properties of the name generator -/

theorem probeLoop_unfold (stateNamesInUse : Finset FName) (uniqueNameBase : String)
    (uniqueNameSuffix : Nat) :
    probeLoop stateNamesInUse uniqueNameBase uniqueNameSuffix =
      if suffixedName uniqueNameBase uniqueNameSuffix ∈ stateNamesInUse then
        probeLoop stateNamesInUse uniqueNameBase (uniqueNameSuffix + 1)
      else suffixedName uniqueNameBase uniqueNameSuffix := by
  rw [probeLoop]

theorem probeLoop_of_mem {stateNamesInUse : Finset FName} {uniqueNameBase : String}
    {uniqueNameSuffix : Nat}
    (h : suffixedName uniqueNameBase uniqueNameSuffix ∈ stateNamesInUse) :
    probeLoop stateNamesInUse uniqueNameBase uniqueNameSuffix =
      probeLoop stateNamesInUse uniqueNameBase (uniqueNameSuffix + 1) := by
  rw [probeLoop_unfold, if_pos h]

theorem probeLoop_of_not_mem {stateNamesInUse : Finset FName} {uniqueNameBase : String}
    {uniqueNameSuffix : Nat}
    (h : suffixedName uniqueNameBase uniqueNameSuffix ∉ stateNamesInUse) :
    probeLoop stateNamesInUse uniqueNameBase uniqueNameSuffix =
      suffixedName uniqueNameBase uniqueNameSuffix := by
  rw [probeLoop_unfold, if_neg h]

/-- The loop entered at counter `k` stops at the first `j ≥ k` whose name is
free. -/
theorem probeLoop_spec (s : Finset FName) (b : String) :
    ∀ (m k : Nat), (unprobed s b k).card = m →
      ∃ j, k ≤ j ∧ probeLoop s b k = suffixedName b j ∧ suffixedName b j ∉ s ∧
        ∀ i, k ≤ i → i < j → suffixedName b i ∈ s := by
  intro m
  induction m using Nat.strong_induction_on with
  | _ m ih =>
    intro k hk
    by_cases h : suffixedName b k ∈ s
    · have hlt := unprobed_card_lt s b k h
      obtain ⟨j, hj, hres, hfree, hbelow⟩ := ih _ (hk ▸ hlt) (k + 1) rfl
      refine ⟨j, by omega, ?_, hfree, ?_⟩
      · rw [probeLoop_of_mem h, hres]
      · intro i hi hij
        rcases Nat.eq_or_lt_of_le hi with rfl | hlt'
        · exact h
        · exact hbelow i hlt' hij
    · exact ⟨k, le_refl k, probeLoop_of_not_mem h, h, fun i hi hik => by omega⟩

theorem suffixedName_ne_base (b : String) (k : Nat) : suffixedName b k ≠ b := by
  intro h
  have h1 := congrArg String.length h
  simp only [suffixedName, String.length_append] at h1
  have : ("_" : String).length = 1 := by decide
  omega

/-- When the base name and every `b_i` with `1 ≤ i < j` are in the registry,
the registry has at least `j` names. -/
theorem card_ge_of_probed (s : Finset FName) (b : String) (j : Nat) (hb : b ∈ s)
    (h : ∀ i, 1 ≤ i → i < j → suffixedName b i ∈ s) : j ≤ s.card := by
  cases j with
  | zero => exact Nat.zero_le _
  | succ j =>
    have hsub : insert b ((Finset.Ico 1 (j + 1)).image (suffixedName b)) ⊆ s := by
      intro x hx
      rcases Finset.mem_insert.mp hx with rfl | hx
      · exact hb
      · obtain ⟨i, hi, rfl⟩ := Finset.mem_image.mp hx
        rw [Finset.mem_Ico] at hi
        exact h i hi.1 hi.2
    have hnot : b ∉ (Finset.Ico 1 (j + 1)).image (suffixedName b) := by
      intro hx
      obtain ⟨i, _, hi⟩ := Finset.mem_image.mp hx
      exact suffixedName_ne_base b i hi
    have hcard := Finset.card_le_card hsub
    rw [Finset.card_insert_of_not_mem hnot,
      Finset.card_image_of_injective _ (suffixedName_injective b)] at hcard
    simpa using hcard

/-- C1. `MakeUniqueLuaStateName` is total and returns the first name of the
sequence `b, b_1, b_2, …` that is not in `stateNamesInUse`: `b` itself when `b`
is free, otherwise `b_k` for the least `k ≥ 1` with `b_k` free. The loop counter
stops at a `k` no larger than the number of names in the registry. -/
theorem MakeUniqueLuaStateName_first_free (stateNamesInUse : Finset FName) (b : FName) :
    (b ∉ stateNamesInUse → MakeUniqueLuaStateName stateNamesInUse b = b) ∧
    (b ∈ stateNamesInUse →
      ∃ k, 1 ≤ k ∧ k ≤ stateNamesInUse.card ∧
        MakeUniqueLuaStateName stateNamesInUse b = suffixedName b k ∧
        suffixedName b k ∉ stateNamesInUse ∧
        ∀ j, 1 ≤ j → j < k → suffixedName b j ∈ stateNamesInUse) := by
  constructor
  · intro h
    simp [MakeUniqueLuaStateName, h]
  · intro h
    obtain ⟨k, hk, hres, hfree, hbelow⟩ := probeLoop_spec stateNamesInUse b _ 1 rfl
    refine ⟨k, hk, card_ge_of_probed stateNamesInUse b k h hbelow, ?_, hfree, hbelow⟩
    simp [MakeUniqueLuaStateName, h, hres]

/-- C1 at the registry `{x, x_1}`: the name generated from `x` is `x_2`. -/
theorem MakeUniqueLuaStateName_first_free_witness :
    MakeUniqueLuaStateName {"x", "x_1"} "x" = "x_2" := by
  obtain ⟨k, hk1, hk2, hres, hfree, _⟩ :=
    (MakeUniqueLuaStateName_first_free {"x", "x_1"} "x").2 (by decide)
  have hcard : ({"x", "x_1"} : Finset FName).card = 2 := by decide
  rw [hcard] at hk2
  have hk : k = 2 := by
    rcases Nat.lt_or_ge k 2 with hlt | hge
    · have h1 : k = 1 := by omega
      subst h1
      exact absurd (by decide) hfree
    · omega
  subst hk
  rw [hres]
  decide

/-- The name generated is never in the registry. -/
theorem MakeUniqueLuaStateName_not_mem (stateNamesInUse : Finset FName) (b : FName) :
    MakeUniqueLuaStateName stateNamesInUse b ∉ stateNamesInUse := by
  by_cases h : b ∈ stateNamesInUse
  · obtain ⟨k, _, hres, hfree, _⟩ := probeLoop_spec stateNamesInUse b _ 1 rfl
    simp [MakeUniqueLuaStateName, h, hres, hfree]
  · simp [MakeUniqueLuaStateName, h]

/-! ## `destroy` and the registry -/

theorem destroy_keeps_other_names (stateNamesInUse : Finset FName) (self : UUthLuaState) :
    ∀ m : FName, m ≠ self.getName →
      (m ∈ (self.destroy stateNamesInUse).1 ↔ m ∈ stateNamesInUse) := by
  intro m hm
  simp [UUthLuaState.destroy, hm]

/-- C5. After `destroy()` on an object named `n`, `n` is not in
`stateNamesInUse`, every other name is in the registry exactly when it was
before, and `MakeUniqueLuaStateName(n)` called next returns `n`. -/
theorem destroy_releases_name (stateNamesInUse : Finset FName) (self : UUthLuaState) :
    self.getName ∉ (self.destroy stateNamesInUse).1 ∧
    (∀ m : FName, m ≠ self.getName →
      (m ∈ (self.destroy stateNamesInUse).1 ↔ m ∈ stateNamesInUse)) ∧
    (self.destroy stateNamesInUse).2.getName = self.getName ∧
    MakeUniqueLuaStateName (self.destroy stateNamesInUse).1 self.getName = self.getName := by
  refine ⟨?_, ?_, ?_, ?_⟩
  · simp [UUthLuaState.destroy]
  · intro m hm
    simp [UUthLuaState.destroy, hm]
  · simp only [UUthLuaState.destroy, UUthLuaState.getName]
    split <;> rfl
  · simp [UUthLuaState.destroy, MakeUniqueLuaStateName]

/-! ## `setName` -/

theorem setName_of_invalid (stateNamesInUse : Finset FName) (self : UUthLuaState) (n : FName)
    (h : self.isValid = false) :
    self.setName stateNamesInUse n = SetNameOutcome.checkFailed := by
  simp [UUthLuaState.setName, h]

theorem setName_of_same (stateNamesInUse : Finset FName) (self : UUthLuaState) (n : FName)
    (hvalid : self.isValid = true) (hsame : n = self.getName) :
    self.setName stateNamesInUse n =
      SetNameOutcome.returned
        { result := true, stateNamesInUse := stateNamesInUse, self := self } := by
  simp [UUthLuaState.setName, hvalid, hsame]

theorem setName_of_taken (stateNamesInUse : Finset FName) (self : UUthLuaState) (n : FName)
    (hvalid : self.isValid = true) (hne : n ≠ self.getName) (htaken : n ∈ stateNamesInUse) :
    self.setName stateNamesInUse n =
      SetNameOutcome.returned
        { result := false, stateNamesInUse := stateNamesInUse, self := self } := by
  simp [UUthLuaState.setName, hvalid, hne, htaken]

/-- C6. On a valid object, `setName(n)` with `n` different from the current
name and already in `stateNamesInUse` returns false and leaves the registry and
the whole object (name, interpreter, its `uth.statename`, the record of hook
calls) as they were. -/
theorem setName_taken (stateNamesInUse : Finset FName) (self : UUthLuaState) (n : FName)
    (hvalid : self.isValid = true) (hne : n ≠ self.getName) (htaken : n ∈ stateNamesInUse) :
    self.setName stateNamesInUse n =
      SetNameOutcome.returned
        { result := false, stateNamesInUse := stateNamesInUse, self := self } :=
  setName_of_taken stateNamesInUse self n hvalid hne htaken

/-- C6 at a concrete valid object: the one constructed first, asked to take
the name `other`, which is in the registry. -/
theorem setName_taken_witness :
    (UUthLuaState.construct Host.loaded ∅).self.setName {"default", "other"} "other" =
      SetNameOutcome.returned
        { result := false, stateNamesInUse := {"default", "other"},
          self := (UUthLuaState.construct Host.loaded ∅).self } :=
  setName_taken {"default", "other"} (UUthLuaState.construct Host.loaded ∅).self "other"
    (by decide) (by decide) (by decide)

theorem setName_of_free (stateNamesInUse : Finset FName) (self : UUthLuaState) (n : FName)
    (hvalid : self.isValid = true)
    (hhook : self.lua.map (fun L => L.uth_utility_defined) = some true)
    (hne : n ≠ self.getName) (hfree : n ∉ stateNamesInUse) :
    ∃ r L, self.setName stateNamesInUse n = SetNameOutcome.returned r ∧ self.lua = some L ∧
      r.result = true ∧
      r.self.getName = n ∧
      r.stateNamesInUse = insert n (stateNamesInUse.erase self.getName) ∧
      (∀ m : FName, m ≠ n → m ≠ self.getName →
        (m ∈ r.stateNamesInUse ↔ m ∈ stateNamesInUse)) ∧
      r.self.lua = some { L with uth_statename := n,
                                 redirect_output_calls := L.redirect_output_calls ++ [n] } ∧
      r.self.rooted = self.rooted ∧ r.self.pendingKill = self.pendingKill := by
  obtain ⟨name, lua, rooted, pendingKill⟩ := self
  cases lua with
  | none => simp [UUthLuaState.isValid] at hvalid
  | some L =>
    have hL : L.uth_utility_defined = true := by simpa using hhook
    refine ⟨{ result := true
              stateNamesInUse := insert n (stateNamesInUse.erase name)
              self := { name := n
                        lua := some { L with uth_statename := n,
                                             redirect_output_calls :=
                                               L.redirect_output_calls ++ [n] }
                        rooted := rooted
                        pendingKill := pendingKill } }, L, ?_, rfl, rfl, rfl, rfl, ?_, rfl, rfl, rfl⟩
    · have hne' : ¬ n = name := hne
      simp [UUthLuaState.setName, hvalid, hne', hfree, UUthLuaState.getName, redirect_output, hL]
    · intro m hm1 hm2
      have hm2' : ¬ m = name := hm2
      simp [hm1, hm2']

/-- Where the hook does not exist, a `setName` to a free name raises at the
hook call, after the registry, the name and `uth.statename` have been written. -/
theorem setName_of_free_without_hook (stateNamesInUse : Finset FName) (self : UUthLuaState)
    (n : FName) (hvalid : self.isValid = true)
    (hhook : self.lua.map (fun L => L.uth_utility_defined) = some false)
    (hne : n ≠ self.getName) (hfree : n ∉ stateNamesInUse) :
    ∃ L, self.lua = some L ∧
      self.setName stateNamesInUse n =
        SetNameOutcome.raised (insert n (stateNamesInUse.erase self.getName))
          { self with name := n, lua := some { L with uth_statename := n } } := by
  obtain ⟨name, lua, rooted, pendingKill⟩ := self
  cases lua with
  | none => simp [UUthLuaState.isValid] at hvalid
  | some L =>
    have hL : L.uth_utility_defined = false := by simpa using hhook
    have hne' : ¬ n = name := hne
    exact ⟨L, rfl, by
      simp [UUthLuaState.setName, hvalid, hne', hfree, UUthLuaState.getName, hL]⟩

/-- A `setName` to a free name on a valid object, whether it returns or raises,
leaves the registry with the old name out and the new one in, and the object
valid under the new name. -/
theorem setName_after_of_free (stateNamesInUse : Finset FName) (self : UUthLuaState)
    (n : FName) (hvalid : self.isValid = true) (hne : n ≠ self.getName)
    (hfree : n ∉ stateNamesInUse) :
    ∃ self1, (self.setName stateNamesInUse n).after =
        some (insert n (stateNamesInUse.erase self.getName), self1) ∧
      self1.getName = n ∧ self1.isValid = true := by
  have hlua : ∃ L, self.lua = some L := by
    cases h : self.lua with
    | none => simp [UUthLuaState.isValid, h] at hvalid
    | some L => exact ⟨L, rfl⟩
  obtain ⟨L, hL⟩ := hlua
  have hpk : self.pendingKill = false := by
    simp [UUthLuaState.isValid] at hvalid; exact hvalid.2
  cases hh : L.uth_utility_defined with
  | true =>
    obtain ⟨r, L1, hs, hL1, _, hname, hreg, _, hl, _, hp⟩ :=
      setName_of_free stateNamesInUse self n hvalid (by simp [hL, hh]) hne hfree
    refine ⟨r.self, ?_, hname, ?_⟩
    · rw [hs, ← hreg]; rfl
    · simp [UUthLuaState.isValid, hl, hp, hpk]
  | false =>
    obtain ⟨L1, hL1, hs⟩ :=
      setName_of_free_without_hook stateNamesInUse self n hvalid (by simp [hL, hh]) hne hfree
    refine ⟨{ self with name := n, lua := some { L1 with uth_statename := n } }, ?_, rfl, ?_⟩
    · rw [hs]; rfl
    · simp [UUthLuaState.isValid, hpk]

theorem construct_loaded_name (host : Host) (stateNamesInUse : Finset FName)
    (h : host.IsModuleLoaded = true) :
    (UUthLuaState.construct host stateNamesInUse).self.name =
        MakeUniqueLuaStateName stateNamesInUse "default" ∧
    (UUthLuaState.construct host stateNamesInUse).stateNamesInUse =
        insert (MakeUniqueLuaStateName stateNamesInUse "default") stateNamesInUse ∧
    (UUthLuaState.construct host stateNamesInUse).self.isValid = true := by
  simp [UUthLuaState.construct, h, UUthLuaState.isValid, UUthLuaState.fresh]

/-- C9. With the module loaded, two constructions in a row give two valid
objects with different names, both names in `stateNamesInUse` afterwards, from
every starting registry; from the empty registry the names are `default` and
`default_1`. -/
theorem construct_twice_distinct (host1 host2 : Host) (stateNamesInUse : Finset FName)
    (h1 : host1.IsModuleLoaded = true) (h2 : host2.IsModuleLoaded = true) :
    let c1 := UUthLuaState.construct host1 stateNamesInUse
    let c2 := UUthLuaState.construct host2 c1.stateNamesInUse
    c1.self.getName ≠ c2.self.getName ∧
    c1.self.getName ∈ c2.stateNamesInUse ∧ c2.self.getName ∈ c2.stateNamesInUse ∧
    c1.self.isValid = true ∧ c2.self.isValid = true ∧
    (stateNamesInUse = ∅ → c1.self.getName = "default" ∧ c2.self.getName = "default_1") := by
  intro c1 c2
  obtain ⟨hn1, hr1, hv1⟩ := construct_loaded_name host1 stateNamesInUse h1
  obtain ⟨hn2, hr2, hv2⟩ := construct_loaded_name host2 c1.stateNamesInUse h2
  have hmem1 : c1.self.name ∈ c1.stateNamesInUse := by
    rw [hr1, hn1]; exact Finset.mem_insert_self _ _
  have hfree2 : c2.self.name ∉ c1.stateNamesInUse := by
    show (UUthLuaState.construct host2 c1.stateNamesInUse).self.name ∉ _
    rw [hn2]; exact MakeUniqueLuaStateName_not_mem _ _
  have hmem2 : c2.self.name ∈ c2.stateNamesInUse := by
    show _ ∈ (UUthLuaState.construct host2 c1.stateNamesInUse).stateNamesInUse
    rw [hr2]
    show (UUthLuaState.construct host2 c1.stateNamesInUse).self.name ∈ _
    rw [hn2]; exact Finset.mem_insert_self _ _
  refine ⟨?_, ?_, hmem2, hv1, hv2, ?_⟩
  · intro heq
    exact hfree2 (by
      have : c1.self.name = c2.self.name := heq
      rw [← this]; exact hmem1)
  · show _ ∈ (UUthLuaState.construct host2 c1.stateNamesInUse).stateNamesInUse
    rw [hr2]
    exact Finset.mem_insert_of_mem hmem1
  · intro hempty
    have e1 : c1.self.name = "default" := by
      show (UUthLuaState.construct host1 stateNamesInUse).self.name = _
      rw [hn1, hempty]; decide
    have er : c1.stateNamesInUse = {"default"} := by
      show (UUthLuaState.construct host1 stateNamesInUse).stateNamesInUse = _
      rw [hr1, hempty]; decide
    refine ⟨e1, ?_⟩
    show (UUthLuaState.construct host2 c1.stateNamesInUse).self.name = _
    rw [hn2, er]
    have hin : ("default" : FName) ∈ ({"default"} : Finset FName) := by decide
    have hout : suffixedName "default" 1 ∉ ({"default"} : Finset FName) := by decide
    rw [MakeUniqueLuaStateName, if_pos hin, probeLoop_of_not_mem hout]
    decide

/-- C9 at the empty registry: the two objects are named `default` and
`default_1`. -/
theorem construct_twice_distinct_witness :
    (UUthLuaState.construct Host.loaded ∅).self.getName = "default" ∧
    (UUthLuaState.construct Host.loaded
      (UUthLuaState.construct Host.loaded ∅).stateNamesInUse).self.getName = "default_1" :=
  (construct_twice_distinct Host.loaded Host.loaded ∅ (by decide) (by decide)).2.2.2.2.2 rfl

/-! ## The module search path -/

/-- The example of the specification: two roots give four patterns. -/
theorem specSearchPath_two_roots :
    specSearchPath ["A", "B"] "ext" = "A/?.ext;A/?/init.ext;B/?.ext;B/?/init.ext" := by
  decide

theorem packagePath_eq_intercalate (P G : String) :
    packagePath P G =
      String.intercalate ";"
        [ownScriptsRoot P ++ "/?.lua",
         torchRoot P ++ "/?.lua", torchRoot P ++ "/?/init.lua",
         projectRoot G ++ "/?.lua", projectRoot G ++ "/?/init.lua"] := by
  apply String.ext
  simp [packagePath, String.intercalate, String.intercalate.go, ownScriptsRoot, torchRoot,
    projectRoot, String.data_append]

theorem packagePath_last (P G : String) : (packagePath P G).data.getLast? = some 'a' := by
  have h : ("/Lua/?/init.lua" : String).data = "/Lua/?/init.lu".data ++ ['a'] := by decide
  simp only [packagePath, String.data_append, h]
  simp [← List.append_assoc]

/-- C10, as the code has it. With the module loaded, `package.path` is the
`;`-separated list, in this order, of `<own>/?.lua`, `<torch>/?.lua`,
`<torch>/?/init.lua`, `<project>/?.lua`, `<project>/?/init.lua`: five patterns,
the plugin's own root contributing no init-file pattern; it does not end in
`;`. -/
theorem construct_package_path (host : Host) (stateNamesInUse : Finset FName)
    (h : host.IsModuleLoaded = true) :
    ∃ L, (UUthLuaState.construct host stateNamesInUse).self.lua = some L ∧
      L.package_path =
        String.intercalate ";"
          [ownScriptsRoot host.BaseDirPlugin ++ "/?.lua",
           torchRoot host.BaseDirPlugin ++ "/?.lua",
           torchRoot host.BaseDirPlugin ++ "/?/init.lua",
           projectRoot host.BaseDirGameContent ++ "/?.lua",
           projectRoot host.BaseDirGameContent ++ "/?/init.lua"] ∧
      ∀ t : String, L.package_path ≠ t ++ ";" := by
  refine ⟨_, by simp [UUthLuaState.construct, h, UUthLuaState.fresh]; rfl, ?_, ?_⟩
  · exact packagePath_eq_intercalate _ _
  · intro t ht
    have h1 := congrArg (fun s : String => s.data.getLast?) ht
    have h2 : (";" : String).data = [';'] := by decide
    simp [packagePath_last, String.data_append, h2] at h1

/-- C10 at the plugin directory `P` and content directory `G`. -/
theorem construct_package_path_witness :
    ∃ L, (UUthLuaState.construct Host.loaded ∅).self.lua = some L ∧
      L.package_path =
        String.intercalate ";"
          [ownScriptsRoot "P" ++ "/?.lua",
           torchRoot "P" ++ "/?.lua",
           torchRoot "P" ++ "/?/init.lua",
           projectRoot "G" ++ "/?.lua",
           projectRoot "G" ++ "/?/init.lua"] ∧
      ∀ t : String, L.package_path ≠ t ++ ";" :=
  construct_package_path Host.loaded ∅ (by decide)

/-- C10 as stated fails: at plugin directory `P` and content directory `G` the
`package.path` set by construction is not the six-pattern path of the three
roots. -/
theorem package_path_is_not_six_patterns :
    (UUthLuaState.construct Host.loaded ∅).self.lua.map (fun L => L.package_path) ≠
      some (specSearchPath [ownScriptsRoot "P", torchRoot "P", projectRoot "G"] "lua") := by
  decide

/-! ## Validity over the life of an object -/

/-- The example state `World.oneLive` is what one construction makes of the
empty program state. -/
theorem step_construct_initial :
    World.initial.step (Op.construct Host.loaded) = some World.oneLive := by
  rfl

theorem isValid_of_lua_none (o : UUthLuaState) (h : o.lua = none) : o.isValid = false := by
  simp [UUthLuaState.isValid, h]

theorem destroy_lua (stateNamesInUse : Finset FName) (o : UUthLuaState) :
    (o.destroy stateNamesInUse).2.lua = none ∧
    (o.destroy stateNamesInUse).2.rooted = false ∧
    (o.destroy stateNamesInUse).2.pendingKill = true ∧
    (o.destroy stateNamesInUse).2.name = o.name := by
  cases hr : o.rooted <;> simp [UUthLuaState.destroy, hr]

/-- An object whose interpreter is null keeps a null interpreter through any
call that the program survives. -/
theorem step_keeps_lua_none (w w1 : World) (op : Op) (i : Nat) (o : UUthLuaState)
    (hi : w.objects[i]? = some o) (hnull : o.lua = none) (hstep : w.step op = some w1) :
    ∃ o1, w1.objects[i]? = some o1 ∧ o1.lua = none := by
  have hlt : i < w.objects.length := by
    rcases Nat.lt_or_ge i w.objects.length with h | h
    · exact h
    · rw [List.getElem?_eq_none h] at hi; cases hi
  cases op with
  | construct host =>
    simp only [World.step, Option.some.injEq] at hstep
    subst hstep
    exact ⟨o, by simp [List.getElem?_append_left hlt, hi], hnull⟩
  | setName j newName =>
    simp only [World.step] at hstep
    cases hj : w.objects[j]? with
    | none => simp [hj] at hstep
    | some self =>
      simp only [hj] at hstep
      cases hs : (self.setName w.stateNamesInUse newName).after with
      | none => simp [hs] at hstep
      | some r =>
        simp only [hs, Option.some.injEq] at hstep
        subst hstep
        by_cases hji : j = i
        · subst hji
          rw [hi] at hj
          cases hj
          rw [setName_of_invalid _ _ _ (isValid_of_lua_none o hnull)] at hs
          cases hs
        · exact ⟨o, by simp [List.getElem?_set_ne hji, hi], hnull⟩
  | destroy j =>
    simp only [World.step] at hstep
    cases hj : w.objects[j]? with
    | none => simp [hj] at hstep
    | some self =>
      simp only [hj, Option.some.injEq] at hstep
      subst hstep
      by_cases hji : j = i
      · subst hji
        exact ⟨(self.destroy w.stateNamesInUse).2, by simp [hlt],
          (destroy_lua w.stateNamesInUse self).1⟩
      · exact ⟨o, by simp [List.getElem?_set_ne hji, hi], hnull⟩

theorem run_keeps_lua_none (ops : List Op) :
    ∀ (w w2 : World) (i : Nat) (o : UUthLuaState),
      w.objects[i]? = some o → o.lua = none → w.run ops = some w2 →
      ∃ o2, w2.objects[i]? = some o2 ∧ o2.lua = none := by
  induction ops with
  | nil =>
    intro w w2 i o hi hnull hrun
    simp only [World.run, Option.some.injEq] at hrun
    subst hrun
    exact ⟨o, hi, hnull⟩
  | cons op ops ih =>
    intro w w2 i o hi hnull hrun
    simp only [World.run] at hrun
    cases hs : w.step op with
    | none => simp [hs] at hrun
    | some w1 =>
      simp only [hs] at hrun
      obtain ⟨o1, hi1, hnull1⟩ := step_keeps_lua_none w w1 op i o hi hnull hs
      exact ih w1 w2 i o1 hi1 hnull1 hrun

theorem step_destroy_eq (w : World) (i : Nat) (o : UUthLuaState) (hi : w.objects[i]? = some o) :
    w.step (Op.destroy i) =
      some { w with stateNamesInUse := (o.destroy w.stateNamesInUse).1,
                    objects := w.objects.set i (o.destroy w.stateNamesInUse).2 } := by
  simp [World.step, hi]

theorem destroy_destroy (stateNamesInUse : Finset FName) (o : UUthLuaState) :
    (o.destroy stateNamesInUse).2.destroy (o.destroy stateNamesInUse).1 =
      o.destroy stateNamesInUse := by
  obtain ⟨name, lua, rooted, pendingKill⟩ := o
  cases rooted <;> simp [UUthLuaState.destroy, UUthLuaState.getName]

theorem step_destroy_twice (w : World) (i : Nat) (hi : i < w.objects.length) :
    ∃ w1 o1, w.step (Op.destroy i) = some w1 ∧ w1.step (Op.destroy i) = some w1 ∧
      w1.objects[i]? = some o1 ∧
      o1.lua = none ∧ o1.rooted = false ∧ o1.pendingKill = true := by
  have hget : w.objects[i]? = some w.objects[i] := List.getElem?_eq_getElem hi
  obtain ⟨hl, hr, hp, hn⟩ := destroy_lua w.stateNamesInUse w.objects[i]
  refine ⟨_, (w.objects[i].destroy w.stateNamesInUse).2, step_destroy_eq w i _ hget, ?_, ?_,
    hl, hr, hp⟩
  · have hget1 : (w.objects.set i (w.objects[i].destroy w.stateNamesInUse).2)[i]? =
        some (w.objects[i].destroy w.stateNamesInUse).2 := by simp [hi]
    rw [step_destroy_eq _ i _ hget1]
    have hdd := destroy_destroy w.stateNamesInUse w.objects[i]
    have hobj := congrArg Prod.snd hdd
    have hreg := congrArg Prod.fst hdd
    simp only at hobj hreg
    simp only [hobj, hreg, List.set_set]
  · simp [hi]

/-- C4. `destroy()` is idempotent: on any object of any program state the
first call succeeds, and a second call right after it succeeds too and changes
nothing (registry, every object, log); the object is left with a null
interpreter, the root flag cleared and the pending-kill flag set. -/
theorem destroy_idempotent (w : World) (i : Nat) (hi : i < w.objects.length) :
    ∃ w1 o1, w.step (Op.destroy i) = some w1 ∧ w1.step (Op.destroy i) = some w1 ∧
      w1.objects[i]? = some o1 ∧
      o1.lua = none ∧ o1.rooted = false ∧ o1.pendingKill = true :=
  step_destroy_twice w i hi

/-- C4 on the program that has constructed one object. -/
theorem destroy_idempotent_witness :
    ∃ w1 o1, World.oneLive.step (Op.destroy 0) = some w1 ∧
      w1.step (Op.destroy 0) = some w1 ∧ w1.objects[0]? = some o1 ∧
      o1.lua = none ∧ o1.rooted = false ∧ o1.pendingKill = true :=
  destroy_idempotent World.oneLive 0 (by decide)

theorem run_replicate_fixed (w : World) (op : Op) (h : w.step op = some w) :
    ∀ n : Nat, w.run (List.replicate n op) = some w := by
  intro n
  induction n with
  | zero => rfl
  | succ n ih => simp [List.replicate_succ, World.run, h, ih]

/-- C3. Once `destroy()` has returned on an object (whatever its state before:
valid or never initialised, rooted or not), `isValid()` is false on it, any
number of further `destroy()` calls on it go through, and `isValid()` is false
on it after every later sequence of calls that the program survives (a
`setName` on it fails its `check`). -/
theorem destroy_invalid_forever (w w1 : World) (i : Nat)
    (hstep : w.step (Op.destroy i) = some w1) :
    (∃ o1, w1.objects[i]? = some o1 ∧ o1.isValid = false) ∧
    (∀ n : Nat, w1.run (List.replicate n (Op.destroy i)) = some w1) ∧
    (∀ (ops : List Op) (w2 : World), w1.run ops = some w2 →
      ∃ o2, w2.objects[i]? = some o2 ∧ o2.isValid = false) ∧
    (∀ (ops : List Op) (w2 : World) (n : FName) , w1.run ops = some w2 →
      w2.step (Op.setName i n) = none) := by
  have hi : i < w.objects.length := by
    rcases Nat.lt_or_ge i w.objects.length with h | h
    · exact h
    · simp [World.step, List.getElem?_eq_none h] at hstep
  obtain ⟨w1', o1, hs1, hs2, ho1, hl, _, _⟩ := step_destroy_twice w i hi
  rw [hstep] at hs1
  cases hs1
  have hkeep : ∀ (ops : List Op) (w2 : World), w1.run ops = some w2 →
      ∃ o2, w2.objects[i]? = some o2 ∧ o2.lua = none :=
    fun ops w2 hrun => run_keeps_lua_none ops w1 w2 i o1 ho1 hl hrun
  refine ⟨⟨o1, ho1, isValid_of_lua_none o1 hl⟩, run_replicate_fixed w1 _ hs2, ?_, ?_⟩
  · intro ops w2 hrun
    obtain ⟨o2, h2, hl2⟩ := hkeep ops w2 hrun
    exact ⟨o2, h2, isValid_of_lua_none o2 hl2⟩
  · intro ops w2 n hrun
    obtain ⟨o2, h2, hl2⟩ := hkeep ops w2 hrun
    simp [World.step, h2, setName_of_invalid _ _ _ (isValid_of_lua_none o2 hl2),
      SetNameOutcome.after]

/-- C3 on the program that has constructed one object and destroys it. -/
theorem destroy_invalid_forever_witness :
    World.oneLive.step (Op.destroy 0) = some World.oneDestroyed ∧
    (∃ o1, World.oneDestroyed.objects[0]? = some o1 ∧ o1.isValid = false) ∧
    (∀ n : Nat, World.oneDestroyed.run (List.replicate n (Op.destroy 0))
      = some World.oneDestroyed) ∧
    (∀ (ops : List Op) (w2 : World), World.oneDestroyed.run ops = some w2 →
      ∃ o2, w2.objects[0]? = some o2 ∧ o2.isValid = false) ∧
    (∀ (ops : List Op) (w2 : World) (n : FName) , World.oneDestroyed.run ops = some w2 →
      w2.step (Op.setName 0 n) = none) :=
  ⟨by decide, destroy_invalid_forever World.oneLive World.oneDestroyed 0 (by decide)⟩

/-- C8. When the module is not loaded, construction goes through, logs
nothing, leaves `stateNamesInUse` as it was and yields an object with a null
interpreter, for which `isValid()` is false; `isValid()` is false on that object
after every later sequence of calls that the program survives. -/
theorem construct_not_loaded (w : World) (host : Host) (h : host.IsModuleLoaded = false) :
    ∃ w1 o1, w.step (Op.construct host) = some w1 ∧
      w1.stateNamesInUse = w.stateNamesInUse ∧ w1.log = w.log ∧
      w1.objects = w.objects ++ [o1] ∧ o1.lua = none ∧ o1.isValid = false ∧
      ∀ (ops : List Op) (w2 : World), w1.run ops = some w2 →
        ∃ o2, w2.objects[w.objects.length]? = some o2 ∧ o2.isValid = false := by
  refine ⟨_, UUthLuaState.fresh, rfl, ?_, ?_, ?_, rfl, rfl, ?_⟩
  · simp [UUthLuaState.construct, h]
  · simp [UUthLuaState.construct, h]
  · simp [UUthLuaState.construct, h]
  · intro ops w2 hrun
    have hget : (w.objects ++ [(UUthLuaState.construct host w.stateNamesInUse).self])[
        w.objects.length]? = some UUthLuaState.fresh := by
      simp [UUthLuaState.construct, h]
    obtain ⟨o2, h2, hl2⟩ := run_keeps_lua_none ops _ w2 _ _ hget rfl hrun
    exact ⟨o2, h2, isValid_of_lua_none o2 hl2⟩

/-- C8 on a program that already holds one live object. -/
theorem construct_not_loaded_witness :
    ∃ w1 o1, World.oneLive.step (Op.construct Host.notLoaded) = some w1 ∧
      w1.stateNamesInUse = World.oneLive.stateNamesInUse ∧ w1.log = World.oneLive.log ∧
      w1.objects = World.oneLive.objects ++ [o1] ∧ o1.lua = none ∧ o1.isValid = false ∧
      ∀ (ops : List Op) (w2 : World), w1.run ops = some w2 →
        ∃ o2, w2.objects[World.oneLive.objects.length]? = some o2 ∧ o2.isValid = false :=
  construct_not_loaded World.oneLive Host.notLoaded (by decide)

/-! ## Uniqueness of the names of live objects -/

/-- The calls of the scenario: construct `A`, destroy `A`, construct `B`,
destroy `A` once more, construct `C`; the module is loaded throughout. -/
def doubleDestroyScenario : List Op :=
  [Op.construct Host.loaded, Op.destroy 0, Op.construct Host.loaded, Op.destroy 0,
   Op.construct Host.loaded]

/-- C2 fails on the code. From the empty registry, after constructing `A`,
destroying it, constructing `B`, destroying `A` a second time and constructing
`C`, the objects `B` and `C` are both valid and both named `default`: the second
`destroy()` of `A` erased from the registry the name that `B` had taken over. -/
theorem double_destroy_breaks_uniqueness :
    (World.initial.run doubleDestroyScenario).map
        (fun w => w.objects.map (fun o => (o.getName, o.isValid))) =
      some [("default", false), ("default", true), ("default", true)] := by
  decide

theorem getElem?_append_singleton {α : Type} (l : List α) (x a : α) (i : Nat)
    (h : (l ++ [x])[i]? = some a) : l[i]? = some a ∨ (i = l.length ∧ a = x) := by
  rcases Nat.lt_trichotomy i l.length with hlt | heq | hgt
  · left
    rwa [List.getElem?_append_left hlt] at h
  · right
    subst heq
    simp at h
    exact ⟨rfl, h.symm⟩
  · have : (l ++ [x]).length ≤ i := by simp; omega
    rw [List.getElem?_eq_none this] at h
    cases h

theorem getElem?_set_cases {α : Type} (l : List α) (x a : α) (i j : Nat)
    (h : (l.set i x)[j]? = some a) : (j = i ∧ a = x) ∨ (j ≠ i ∧ l[j]? = some a) := by
  by_cases hji : j = i
  · subst hji
    left
    have hlt : j < l.length := by
      rcases Nat.lt_or_ge j l.length with h1 | h1
      · exact h1
      · rw [List.getElem?_eq_none (by simpa using h1)] at h; cases h
    simp [hlt] at h
    exact ⟨rfl, h.symm⟩
  · right
    refine ⟨hji, ?_⟩
    rwa [List.getElem?_set_ne (Ne.symm hji)] at h

/-- Both parts of the invariant survive every call that is not a `destroy()`
on an invalid object. -/
theorem step_preserves_names (w w1 : World) (op : Op)
    (huniq : w.NamesUnique) (hres : w.LiveNamesReserved)
    (hop : op.destroysOnlyLive w) (hstep : w.step op = some w1) :
    w1.NamesUnique ∧ w1.LiveNamesReserved := by
  cases op with
  | construct host =>
    simp only [World.step, Option.some.injEq] at hstep
    subst hstep
    cases hl : host.IsModuleLoaded with
    | false =>
      have hc : UUthLuaState.construct host w.stateNamesInUse =
          { stateNamesInUse := w.stateNamesInUse, self := UUthLuaState.fresh, logged := [] } := by
        simp [UUthLuaState.construct, hl]
      rw [hc]
      have hfresh : UUthLuaState.fresh.isValid = false := rfl
      constructor
      · intro i j a b ha hb hva hvb hab
        rcases getElem?_append_singleton _ _ _ _ ha with ha | ⟨_, rfl⟩
        · rcases getElem?_append_singleton _ _ _ _ hb with hb | ⟨_, rfl⟩
          · exact huniq i j a b ha hb hva hvb hab
          · rw [hfresh] at hvb; cases hvb
        · rw [hfresh] at hva; cases hva
      · intro i a ha hva
        rcases getElem?_append_singleton _ _ _ _ ha with ha | ⟨_, rfl⟩
        · exact hres i a ha hva
        · rw [hfresh] at hva; cases hva
    | true =>
      obtain ⟨hn, hr, _⟩ := construct_loaded_name host w.stateNamesInUse hl
      have hfree := MakeUniqueLuaStateName_not_mem w.stateNamesInUse "default"
      rw [← hn] at hfree
      constructor
      · intro i j a b ha hb hva hvb hab
        rcases getElem?_append_singleton _ _ _ _ ha with ha | ⟨hi, rfl⟩
        · rcases getElem?_append_singleton _ _ _ _ hb with hb | ⟨hj, rfl⟩
          · exact huniq i j a b ha hb hva hvb hab
          · have hmem := hres i a ha hva
            rw [hab] at hmem
            exact absurd hmem hfree
        · rcases getElem?_append_singleton _ _ _ _ hb with hb | ⟨hj, rfl⟩
          · have hmem := hres j b hb hvb
            rw [← hab] at hmem
            exact absurd hmem hfree
          · rw [hi, hj]
      · intro i a ha hva
        show a.getName ∈ (UUthLuaState.construct host w.stateNamesInUse).stateNamesInUse
        rw [hr]
        rcases getElem?_append_singleton _ _ _ _ ha with ha | ⟨_, rfl⟩
        · exact Finset.mem_insert_of_mem (hres i a ha hva)
        · rw [← hn]; exact Finset.mem_insert_self _ _
  | setName k newName =>
    simp only [World.step] at hstep
    cases hk : w.objects[k]? with
    | none => simp [hk] at hstep
    | some self =>
      simp only [hk] at hstep
      cases hs : (self.setName w.stateNamesInUse newName).after with
      | none => simp [hs] at hstep
      | some r =>
        simp only [hs, Option.some.injEq] at hstep
        subst hstep
        have hvalid : self.isValid = true := by
          cases hv : self.isValid with
          | true => rfl
          | false =>
            rw [setName_of_invalid _ _ _ hv] at hs
            cases hs
        have hklt : k < w.objects.length := by
          rcases Nat.lt_or_ge k w.objects.length with h | h
          · exact h
          · rw [List.getElem?_eq_none h] at hk; cases hk
        have hobj : w.objects.set k self = w.objects := by
          apply List.ext_getElem? ; intro n
          by_cases hnk : k = n
          · subst hnk; simp [hklt, hk]
          · simp [List.getElem?_set_ne hnk]
        by_cases hsame : newName = self.getName
        · rw [setName_of_same _ _ _ hvalid hsame] at hs
          cases hs
          simp only [hobj]
          exact ⟨huniq, hres⟩
        · by_cases htaken : newName ∈ w.stateNamesInUse
          · rw [setName_of_taken _ _ _ hvalid hsame htaken] at hs
            cases hs
            simp only [hobj]
            exact ⟨huniq, hres⟩
          · obtain ⟨self1, hs1, hname, _⟩ :=
              setName_after_of_free w.stateNamesInUse self newName hvalid hsame htaken
            rw [hs] at hs1
            cases hs1
            constructor
            · intro i j a b ha hb hva hvb hab
              rcases getElem?_set_cases _ _ _ _ _ ha with ⟨hi, hax⟩ | ⟨hi, ha0⟩
              · rcases getElem?_set_cases _ _ _ _ _ hb with ⟨hj, hbx⟩ | ⟨hj, hb0⟩
                · rw [hi, hj]
                · have hmem := hres j b hb0 hvb
                  rw [← hab, hax, hname] at hmem
                  exact absurd hmem htaken
              · rcases getElem?_set_cases _ _ _ _ _ hb with ⟨hj, hbx⟩ | ⟨hj, hb0⟩
                · have hmem := hres i a ha0 hva
                  rw [hab, hbx, hname] at hmem
                  exact absurd hmem htaken
                · exact huniq i j a b ha0 hb0 hva hvb hab
            · intro i a ha hva
              show a.getName ∈ insert newName (w.stateNamesInUse.erase self.getName)
              rcases getElem?_set_cases _ _ _ _ _ ha with ⟨hi, hax⟩ | ⟨hi, ha0⟩
              · rw [hax, hname]; exact Finset.mem_insert_self _ _
              · apply Finset.mem_insert_of_mem
                rw [Finset.mem_erase]
                refine ⟨?_, hres i a ha0 hva⟩
                intro heq
                exact hi (huniq i k a self ha0 hk hva hvalid heq)
  | destroy k =>
    obtain ⟨o, hk, hvalid⟩ := hop
    rw [step_destroy_eq w k o hk] at hstep
    simp only [Option.some.injEq] at hstep
    subst hstep
    have hdead : (o.destroy w.stateNamesInUse).2.isValid = false :=
      isValid_of_lua_none _ (destroy_lua w.stateNamesInUse o).1
    constructor
    · intro i j a b ha hb hva hvb hab
      rcases getElem?_set_cases _ _ _ _ _ ha with ⟨_, rfl⟩ | ⟨hi, ha⟩
      · rw [hdead] at hva; cases hva
      · rcases getElem?_set_cases _ _ _ _ _ hb with ⟨_, rfl⟩ | ⟨hj, hb⟩
        · rw [hdead] at hvb; cases hvb
        · exact huniq i j a b ha hb hva hvb hab
    · intro i a ha hva
      rcases getElem?_set_cases _ _ _ _ _ ha with ⟨_, rfl⟩ | ⟨hi, ha⟩
      · rw [hdead] at hva; cases hva
      · show a.getName ∈ (o.destroy w.stateNamesInUse).1
        have hne : a.getName ≠ o.getName := fun heq =>
          hi (huniq i k a o ha hk hva hvalid heq)
        exact ((destroy_keeps_other_names w.stateNamesInUse o) a.getName hne).mpr
          (hres i a ha hva)

/-- Uniqueness of the names of valid objects holds in every program state
reached without calling `destroy()` on an invalid object. -/
theorem names_unique_of_reachable (w : World) (h : w.ReachableDestroyingLive) :
    w.NamesUnique ∧ w.LiveNamesReserved := by
  induction h with
  | initial =>
    constructor
    · intro i j a b ha; simp [World.initial] at ha
    · intro i a ha; simp [World.initial] at ha
  | step w w1 op _ hop hstep ih => exact step_preserves_names w w1 op ih.1 ih.2 hop hstep

end UnrealTorch
